import Mathlib

/-!
Verification of the FMCW host-side acquisition driver (`software/src/device.c`).

The development shallowly embeds the bitstream framing/decoding state machine
of `device.c`.  C machine integers are modelled as `Nat`/`Int` with explicit
`% 2^w` where wrap-around matters; the `uint64_t` arithmetic of `sample_val`
is modelled exactly, and the conversion `(sample_t)(...)` from `uint64_t` to
the 32-bit `int` is modelled with the two's-complement wrap used by the
compilers this code builds with (the C standard leaves it
implementation-defined).  The module-scope parser variables become the fields
of a state record threaded through the functions; each C `while` loop becomes
structural recursion on a natural number that equals the exact number of
remaining loop iterations permitted by the loop condition (the base case of
that recursion coincides with the loop condition failing, so the functions
compute the same results as the C loops on all inputs reachable from
`callback`).
-/

namespace Fmcw

/-- START_FLAG byte (0xFF). -/
def START_FLAG : Nat := 0xFF

/-- STOP_FLAG byte (0x8F). -/
def STOP_FLAG : Nat := 0x8F

/-- Loop of `pow2ceil`: `while (val > pow2val) pow2val *= 2;`.  The first
argument counts the remaining permitted iterations; starting it at `val`
is always enough, since doubling from 1 reaches `val` within `val` steps. -/
def pow2loop : Nat → Nat → Nat → Nat
  | 0, _, p => p
  | fuel + 1, val, p => if p < val then pow2loop fuel val (2 * p) else p

/-- `pow2ceil` from device.c: nearest power of 2 greater than or equal
to `val` (with `pow2ceil 0 = 1`). -/
def pow2ceil (val : Nat) : Nat := pow2loop val val 1

/-- `num_flags` from device.c.  The C function reads the module variable
`_fft`; here it is passed explicitly.  `bytes = sample_bits / 8 + 1`
(integer division), then rounded up to a power of two. -/
def num_flags (fft : Bool) (sample_bits : Nat) : Nat :=
  let sb := if fft then sample_bits * 2 else sample_bits
  pow2ceil (sb / 8 + 1)

/-- `sample_bytes` from device.c (reads `_fft` in C, passed explicitly):
the byte count `ceil(W/8)` rounded up to a power of two. -/
def sample_bytes (fft : Bool) (sample_bits : Nat) : Nat :=
  let sb := if fft then sample_bits * 2 else sample_bits
  let bytes := sb / 8
  let bytes := if sb % 8 ≠ 0 then bytes + 1 else bytes
  pow2ceil bytes

/-- Value of the C expression `(uint64_t)(0x1 << (_sample_bits - 1))`.
`0x1` is a 32-bit `int`; for `sample_bits - 1 ≤ 30` the shift is the plain
power of two, for `sample_bits - 1 = 31` the 32-bit pattern `2^31` is a
negative `int` and sign-extends to `2^64 - 2^31` (two's-complement model
of the implementation-defined/overflowing case). -/
def sample_mask (sample_bits : Nat) : Nat :=
  let s := 2 ^ (sample_bits - 1) % 2 ^ 32
  if s < 2 ^ 31 then s else 2 ^ 64 - 2 ^ 32 + s

/-- Unary minus on `uint64_t`. -/
def uint64_neg (x : Nat) : Nat := (2 ^ 64 - x % 2 ^ 64) % 2 ^ 64

/-- Bitwise complement `~` on `uint64_t`. -/
def uint64_not (x : Nat) : Nat := 2 ^ 64 - 1 - x % 2 ^ 64

/-- The C cast `(sample_t)x` of a `uint64_t` value to the 32-bit `int`
`sample_t`, with two's-complement wrap. -/
def int_of_uint64 (x : Nat) : Int :=
  let r : Nat := x % 2 ^ 32
  if r < 2 ^ 31 then (r : Int) else (r : Int) - 2 ^ 32

/-- The expression `(sample_t)(-(u & mask) + (u & ~mask))` from
`sample_val`, all arithmetic in `uint64_t`, final cast to `int`. -/
def decode_masked (mask u : Nat) : Int :=
  int_of_uint64 ((uint64_neg (u &&& mask) + (u &&& uint64_not mask)) % 2 ^ 64)

/-- Real-mode branch of `sample_val` for a given `_sample_bits`. -/
def sample_val_real (sample_bits : Nat) (uval : Nat) : Int :=
  decode_masked (sample_mask sample_bits) uval

/-- `round(sqrt(n))` for a natural number `n`, exact: the nearest integer
to `√n` (no integer `n` is an exact half-way case). -/
def round_sqrt (n : Nat) : Nat :=
  let r := Nat.sqrt n
  if n ≤ r * r + r then r else r + 1

/-- Conversion of a C `int` value to `uint64_t` (mod `2^64`). -/
def uint64_of_int (n : Int) : Nat := (n % (2 ^ 64 : Int)).toNat

/-- Configuration fixed by `fmcw_start_acquisition`: the module variables
`_sample_bits`, `_sweep_len`, `_fft`, and whether `_log_file` is non-NULL. -/
structure Cfg where
  sample_bits : Nat
  sweep_len : Nat
  fft : Bool
  has_log : Bool

/-- The stored `_sample_bytes = sample_bytes(_sample_bits)`. -/
def Cfg.sampleBytes (c : Cfg) : Nat := sample_bytes c.fft c.sample_bits

/-- The stored `_nflags = num_flags(_sample_bits)`. -/
def Cfg.nflags (c : Cfg) : Nat := num_flags c.fft c.sample_bits

/-- `sample_val` from device.c.  The real-mode branch is exact; in the FFT
branch the `double` computation `round(sqrt(pow(l,2)+pow(u,2)))` is modelled
by the exact rounded integer square root (no claim in this development
depends on FFT-mode decoded values). -/
def sample_val (cfg : Cfg) (uval : Nat) : Int :=
  let mask := sample_mask cfg.sample_bits
  if cfg.fft = false then
    decode_masked mask uval
  else
    let lumask := uint64_of_int (int_of_uint64 (2 ^ cfg.sample_bits % 2 ^ 32) - 1)
    let luval := uval &&& lumask
    let lval := decode_masked mask luval
    let uumask := (lumask <<< cfg.sample_bits) % 2 ^ 64
    let uuval := (uval &&& uumask) >>> cfg.sample_bits
    let upval := decode_masked mask uuval
    ((round_sqrt (lval * lval + upval * upval).toNat : Nat) : Int)

/-- The mutable parser state of device.c: the module variables
`_start_flags`, `_stop_flags`, `_sweep_idx`, `_byte_idx`, `_uval`,
`_last_sample`, `_sweep_valid`, `_cancel`, plus the heap contents of the
`malloc`'d `sweep` buffer (as a total map from index to stored value, so
that a store past the allocated length is still observable) and, as
instrumentation for the safety claims, the list of (index, value) stores
performed on that buffer. -/
structure St where
  start_flags : Nat
  stop_flags : Nat
  sweep_idx : Nat
  byte_idx : Nat
  uval : Nat
  last_sample : Int
  sweep_valid : Bool
  cancel : Bool
  sweep : Nat → Int
  writes : List (Nat × Int)

/-- The store `sweep[i] = v`. -/
def wr (st : St) (i : Nat) (v : Int) : St :=
  { st with
    sweep := fun j => if j = i then v else st.sweep j
    writes := st.writes ++ [(i, v)] }

/-- The `cleanup:` label of `read_stop_seq`:
`_sweep_idx = 0; _start_flags = 0; _stop_flags = 0;`. -/
def cleanup (st : St) : St :=
  { st with sweep_idx := 0, start_flags := 0, stop_flags := 0 }

/-- `inc_check_idx` from device.c: increment `read_idx`; if it reaches
`length` return 0 (the FALSE sentinel), else the new index. -/
def inc_check_idx (read_idx length : Nat) : Nat :=
  if read_idx + 1 = length then 0 else read_idx + 1

/-- The `while (_start_flags < _nflags)` loop of `read_start_seq`.  The
first argument is `length - read_idx`, the exact number of bytes left; the
base case is only reached with `read_idx ≥ length`, which no call reachable
from `callback` produces. -/
def read_start_go (cfg : Cfg) (buf : List Nat) (length : Nat) :
    Nat → Nat → St → Nat × St
  | 0, _, st => (0, st)
  | fuel + 1, read_idx, st =>
    if st.start_flags < cfg.nflags then
      let st' :=
        if buf.getD read_idx 0 = START_FLAG then
          { st with start_flags := st.start_flags + 1 }
        else
          { st with start_flags := 0 }
      let ri := inc_check_idx read_idx length
      if ri = 0 then (0, st') else read_start_go cfg buf length fuel ri st'
    else (read_idx, st)

/-- `read_start_seq` from device.c. -/
def read_start_seq (cfg : Cfg) (buf : List Nat) (length read_idx : Nat) (st : St) :
    Nat × St :=
  read_start_go cfg buf length (length - read_idx) read_idx st

/-- The inner `while (_byte_idx < _sample_bytes)` loop of
`read_sample_seq`, acting on `(read_idx, _byte_idx, _uval)`.  `Sum.inl`
is the `return FALSE` path (chunk exhausted), `Sum.inr` the loop
completing with the current `read_idx`.  The first argument is
`_sample_bytes - _byte_idx`, the exact remaining iteration count. -/
def sample_go (sBytes : Nat) (buf : List Nat) (length : Nat) :
    Nat → Nat → Nat → Nat → Sum (Nat × Nat) (Nat × Nat × Nat)
  | 0, read_idx, byte_idx, uval => Sum.inr (read_idx, byte_idx, uval)
  | fuel + 1, read_idx, byte_idx, uval =>
    if byte_idx < sBytes then
      let uval' := uval ||| (buf.getD read_idx 0 <<< (8 * (sBytes - 1 - byte_idx))) % 2 ^ 64
      let bi' := byte_idx + 1
      let ri := inc_check_idx read_idx length
      if ri = 0 then Sum.inl (bi', uval')
      else sample_go sBytes buf length fuel ri bi' uval'
    else Sum.inr (read_idx, byte_idx, uval)

/-- The outer `while (_sweep_idx < _sweep_len)` loop of `read_sample_seq`.
The first argument is `_sweep_len - _sweep_idx`.  After a complete sample:
`_byte_idx = 0`; store `sample_val(_uval)` at `sweep[_sweep_idx]` when
`_sweep_idx < _sweep_len - 1`, else hold it in `_last_sample`; then
`++_sweep_idx; _uval = 0`. -/
def read_sample_go (cfg : Cfg) (buf : List Nat) (length : Nat) :
    Nat → Nat → St → Nat × St
  | 0, read_idx, st => (read_idx, st)
  | fuel + 1, read_idx, st =>
    if st.sweep_idx < cfg.sweep_len then
      match sample_go cfg.sampleBytes buf length (cfg.sampleBytes - st.byte_idx)
          read_idx st.byte_idx st.uval with
      | Sum.inl (bi, uv) => (0, { st with byte_idx := bi, uval := uv })
      | Sum.inr (ri, _, uv) =>
        let st1 := { st with byte_idx := 0 }
        let st2 :=
          if st.sweep_idx < cfg.sweep_len - 1 then
            wr st1 st.sweep_idx (sample_val cfg uv)
          else
            { st1 with last_sample := sample_val cfg uv }
        let st3 := { st2 with sweep_idx := st.sweep_idx + 1, uval := 0 }
        read_sample_go cfg buf length fuel ri st3
    else (read_idx, st)

/-- `read_sample_seq` from device.c. -/
def read_sample_seq (cfg : Cfg) (buf : List Nat) (length read_idx : Nat) (st : St) :
    Nat × St :=
  read_sample_go cfg buf length (cfg.sweep_len - st.sweep_idx) read_idx st

/-- The `while (_stop_flags < _nflags)` loop of `read_stop_seq`.  The first
argument is `_nflags - _stop_flags`.  On loop exit (run complete) the commit
executes unconditionally: `_sweep_valid = 1; sweep[_sweep_idx] = _last_sample;`
followed by the `cleanup:` resets, returning the current `read_idx`.  On a
non-STOP byte the index is advanced once and `cleanup` runs (the returned
index may be the 0 sentinel).  The early `return FALSE` on chunk exhaustion
skips `cleanup`, preserving `_stop_flags` and `_sweep_idx`. -/
def read_stop_go (cfg : Cfg) (buf : List Nat) (length : Nat) :
    Nat → Nat → St → Nat × St
  | 0, read_idx, st =>
    (read_idx, cleanup (wr { st with sweep_valid := true } st.sweep_idx st.last_sample))
  | fuel + 1, read_idx, st =>
    if st.stop_flags < cfg.nflags then
      if buf.getD read_idx 0 = STOP_FLAG then
        let st' := { st with stop_flags := st.stop_flags + 1 }
        if st'.stop_flags < cfg.nflags then
          let ri := inc_check_idx read_idx length
          if ri = 0 then (0, st')
          else read_stop_go cfg buf length fuel ri st'
        else
          (read_idx,
            cleanup (wr { st' with sweep_valid := true } st'.sweep_idx st'.last_sample))
      else
        (inc_check_idx read_idx length, cleanup st)
    else
      (read_idx, cleanup (wr { st with sweep_valid := true } st.sweep_idx st.last_sample))

/-- `read_stop_seq` from device.c. -/
def read_stop_seq (cfg : Cfg) (buf : List Nat) (length read_idx : Nat) (st : St) :
    Nat × St :=
  read_stop_go cfg buf length (cfg.nflags - st.stop_flags) read_idx st

/-- The `while (1)` dispatch of `callback` (it executes exactly once: every
branch ends in `goto log`).  A 0 returned by a sequence function aborts the
chain, exactly as the `if (!(read_idx = ...)) goto log;` tests do. -/
def fmcw_dispatch (cfg : Cfg) (chunk : List Nat) (st : St) : Nat × St :=
  let length := chunk.length
  if st.stop_flags ≠ 0 then
    read_stop_seq cfg chunk length 0 st
  else if st.sweep_idx ≠ 0 then
    match read_sample_seq cfg chunk length 0 st with
    | (0, st1) => (0, st1)
    | (ri, st1) => read_stop_seq cfg chunk length ri st1
  else
    match read_start_seq cfg chunk length 0 st with
    | (0, st1) => (0, st1)
    | (ri, st1) =>
      match read_sample_seq cfg chunk length ri st1 with
      | (0, st2) => (0, st2)
      | (ri', st2) => read_stop_seq cfg chunk length ri' st2

/-- The bytes `fwrite` appends at the `log:` label: the whole chunk when
`read_idx == 0`, else the first `read_idx` bytes; nothing without a log file. -/
def logBytes (cfg : Cfg) (read_idx : Nat) (chunk : List Nat) : List Nat :=
  if cfg.has_log then (if read_idx = 0 then chunk else chunk.take read_idx) else []

/-- `callback` from device.c.  Returns the `int` result code, the state
after the call, and the bytes written to the log file by this call.
When `_cancel` is set it returns 1; a zero-length chunk or a still-valid
sweep slot returns 0 with no parsing and no logging. -/
def callback (cfg : Cfg) (st : St) (chunk : List Nat) : Nat × St × List Nat :=
  if st.cancel then (1, st, [])
  else if chunk.length = 0 then (0, st, [])
  else if st.sweep_valid then (0, st, [])
  else
    let p := fmcw_dispatch cfg chunk st
    (0, p.2, logBytes cfg p.1 chunk)

/-- State after one callback invocation. -/
def feed (cfg : Cfg) (st : St) (chunk : List Nat) : St :=
  (callback cfg st chunk).2.1

/-- State after a sequence of callback invocations (`ftdi_readstream`
delivering the chunks in order). -/
def feedAll (cfg : Cfg) (st : St) (chunks : List (List Nat)) : St :=
  chunks.foldl (feed cfg) st

/-- The initial parser state: all module variables are zero-initialized
statics; the freshly `malloc`'d sweep buffer contents are arbitrary and
modelled here as all-zero (no theorem depends on them). -/
def st0 : St :=
  { start_flags := 0, stop_flags := 0, sweep_idx := 0, byte_idx := 0,
    uval := 0, last_sample := 0, sweep_valid := false, cancel := false,
    sweep := fun _ => 0, writes := [] }

/-- The configuration of the spec's concrete scenarios:
`sample_bits = 7, sweep_len = 2, fft = false`, no log file. -/
def cfg7 : Cfg := { sample_bits := 7, sweep_len := 2, fft := false, has_log := false }

/-- Same as `cfg7` but with a log file configured. -/
def cfg7log : Cfg := { sample_bits := 7, sweep_len := 2, fft := false, has_log := true }

/-- A two-byte-sample configuration: `sample_bits = 9, sweep_len = 2,
fft = false`, giving `sample_bytes = 2` and `nflags = 2`. -/
def cfg9 : Cfg := { sample_bits := 9, sweep_len := 2, fft := false, has_log := false }

/-- `fmcw_start_acquisition` from device.c, modelled up to its return value
and the configuration it installs.  `log_path` is `none` for NULL;
`fopen_addr` is the address value of the `FILE*` returned by `fopen`
(0 for NULL, i.e. open failure).  The C code tests
`(_log_file = fopen(log_path, "w")) < 0` — an ordered comparison of a
pointer against 0, which is false even when `fopen` fails — so that is the
only path that could return FALSE.  `sweep_len` and `sample_bits` are never
validated.  The mutex/thread plumbing has no effect on the result and is
not modelled. -/
def fmcw_start_acquisition (log_path : Option (List Nat)) (fopen_addr : Nat)
    (sample_bits sweep_len : Nat) (fft : Bool) : Bool × Cfg :=
  let cfg : Cfg :=
    { sample_bits := sample_bits, sweep_len := sweep_len, fft := fft,
      has_log := log_path.isSome && fopen_addr != 0 }
  match log_path with
  | some _ => if (fopen_addr : Int) < 0 then (false, cfg) else (true, cfg)
  | none => (true, cfg)

/-- The copy loop of `fmcw_read_sweep`:
`for (int i = 0; i < _sweep_len; ++i) arr[i] = sweep[i];`. -/
def copy_sweep (sweep_len : Nat) (slot arr : Nat → Int) : Nat → Int :=
  (List.range sweep_len).foldl (fun a i => fun j => if j = i then slot i else a j) arr

/-- `fmcw_read_sweep` from device.c: under the lock, if `_sweep_valid`,
copy the slot buffer into the caller's array, clear `_sweep_valid` and
return TRUE; otherwise return FALSE.  Result: (return value, caller array
after the call, slot buffer after the call, `_sweep_valid` after the call). -/
def fmcw_read_sweep (sweep_len : Nat) (slot : Nat → Int) (valid : Bool)
    (arr : Nat → Int) : Bool × (Nat → Int) × (Nat → Int) × Bool :=
  if valid then (true, copy_sweep sweep_len slot arr, slot, false)
  else (false, arr, slot, valid)

end Fmcw

namespace Fmcw

theorem copy_sweep_succ (n : Nat) (slot arr : Nat → Int) :
    copy_sweep (n + 1) slot arr =
      fun j => if j = n then slot n else copy_sweep n slot arr j := by
  unfold copy_sweep
  rw [List.range_succ, List.foldl_append]
  rfl

theorem copy_sweep_lt : ∀ (n : Nat) (slot arr : Nat → Int) (j : Nat), j < n →
    copy_sweep n slot arr j = slot j := by
  intro n
  induction n with
  | zero => intro slot arr j h; exact absurd h (Nat.not_lt_zero j)
  | succ n ih =>
    intro slot arr j h
    rw [copy_sweep_succ]
    by_cases hj : j = n
    · simp [hj]
    · simp only [hj, if_false]
      exact ih slot arr j (by omega)

theorem copy_sweep_ge : ∀ (n : Nat) (slot arr : Nat → Int) (j : Nat), n ≤ j →
    copy_sweep n slot arr j = arr j := by
  intro n
  induction n with
  | zero => intro slot arr j _; rfl
  | succ n ih =>
    intro slot arr j h
    rw [copy_sweep_succ]
    have hj : j ≠ n := by omega
    simp only [hj, if_false]
    exact ih slot arr j (by omega)

/-- C1: the claim says every parser store into the sweep slot buffer uses an
index strictly below `sweep_len`, the commit writing `last_sample` at
`sweep_len - 1`.  The code violates this: `read_stop_seq` commits with
`sweep[_sweep_idx] = _last_sample` while `_sweep_idx == _sweep_len` (the
sample loop exits only at `_sweep_idx == _sweep_len` and nothing resets it
before the commit), a store one past the end of the `malloc(_sweep_len *
sizeof(int))` buffer.  Concretely, with `sample_bits = 7, sweep_len = 2,
fft = false` (so `nflags = 1, sample_bytes = 1`) the valid frame
`FF 05 7A 8F` commits and the recorded stores are at indices 0 and 2 —
index `sweep_len` itself, never `sweep_len - 1`. -/
theorem c1_commit_out_of_bounds :
    cfg7.sweep_len = 2 ∧
    (feed cfg7 st0 [0xFF, 0x05, 0x7A, 0x8F]).sweep_valid = true ∧
    (feed cfg7 st0 [0xFF, 0x05, 0x7A, 0x8F]).writes = [(0, 5), (2, -6)] := by
  decide

/-- C2 counterexample: with `sample_bits = 7, sweep_len = 2, fft = false`
the single chunk `FF FF 05 7A 8F 8F` publishes no sweep at all (the claim
says exactly one sweep is published), because the code computes `nflags =
pow2ceil(7/8 + 1) = 1`, not 2: the second `FF` is consumed as a sample and
the frame is discarded when `7A` fails the stop-flag check. -/
theorem c2_counterexample :
    (feed cfg7 st0 [0xFF, 0xFF, 0x05, 0x7A, 0x8F, 0x8F]).sweep_valid = false := by
  decide

/-- C2 amended: under that configuration the code derives `sample_bytes = 1`
and `nflags = 1` (not 2).  Feeding `FF FF 05 7A 8F 8F` publishes no sweep:
the lone store is `decode(0xFF) = 127` at index 0, then the frame is
discarded at `7A`.  The single-flag frame `FF 05 7A 8F` does publish one
sweep: `valid` becomes true, 5 is stored at index 0, and the held-back last
sample — `-6`, the 7-bit two's-complement reading of `0x7A`, not 122 — is
written at index 2 (= `sweep_len`, not `sweep_len - 1`; see C1). -/
theorem c2_amended :
    cfg7.nflags = 1 ∧ cfg7.sampleBytes = 1 ∧
    (feed cfg7 st0 [0xFF, 0xFF, 0x05, 0x7A, 0x8F, 0x8F]).sweep_valid = false ∧
    (feed cfg7 st0 [0xFF, 0xFF, 0x05, 0x7A, 0x8F, 0x8F]).writes = [(0, 127)] ∧
    (feed cfg7 st0 [0xFF, 0x05, 0x7A, 0x8F]).sweep_valid = true ∧
    (feed cfg7 st0 [0xFF, 0x05, 0x7A, 0x8F]).writes = [(0, 5), (2, -6)] := by
  decide

/-- C3: the claim says parsing is chunking-invariant.  The code is not:
with `sample_bits = 7, sweep_len = 2, fft = false` the valid frame
`FF 05 7A 8F` publishes a sweep when fed as one chunk, but publishes
nothing when fed byte-at-a-time.  After the chunk `[FF]` completes the
start run at the chunk's last byte, `inc_check_idx` returns the 0
sentinel, `read_start_seq` leaves `_start_flags == _nflags`, and on every
later chunk `read_start_seq` immediately returns its incoming index 0,
which `callback` takes as "buffer exhausted": the parser stalls forever
(even a subsequent whole valid frame is ignored). -/
theorem c3_chunking_stall :
    (feed cfg7 st0 [0xFF, 0x05, 0x7A, 0x8F]).sweep_valid = true ∧
    (feedAll cfg7 st0 [[0xFF], [0x05], [0x7A], [0x8F]]).sweep_valid = false ∧
    (feedAll cfg7 st0 [[0xFF], [0x05], [0x7A], [0x8F]]).writes = [] ∧
    (feedAll cfg7 st0 [[0xFF], [0x05], [0x7A], [0x8F]]).start_flags = cfg7.nflags ∧
    (feedAll cfg7 st0
      [[0xFF], [0x05], [0x7A], [0x8F], [0xFF, 0x05, 0x7A, 0x8F]]).sweep_valid = false := by
  decide

/-- C4 counterexample: the claim says a chunk fed while `valid = true`
still advances the framing state exactly as with `valid = false`.  It does
not: `callback` returns before parsing when `_sweep_valid` is set, so on
the chunk `[FF]` the fresh parser with `valid = true` keeps
`start_flags = 0` while the parser with `valid = false` reaches
`start_flags = 1`. -/
theorem c4_counterexample :
    (feed cfg7 { st0 with sweep_valid := true } [0xFF]).start_flags = 0 ∧
    (feed cfg7 st0 [0xFF]).start_flags = 1 ∧
    (feed cfg7 { st0 with sweep_valid := true } [0xFF]).start_flags ≠
      (feed cfg7 st0 [0xFF]).start_flags := by
  decide

/-- C4 amended: while the slot's `valid` flag is true (and cancellation is
not pending), `callback` ignores the chunk entirely — it returns 0, changes
no parser state, and logs nothing.  Consequently a never-draining consumer
leaves exactly the first committed sweep in the slot, and every byte that
arrives while `valid = true` is dropped unparsed (the parser does not stay
in sync with the stream, and the later frames are not terminated by it). -/
theorem c4_amended (cfg : Cfg) (st : St) (chunk : List Nat)
    (hvalid : st.sweep_valid = true) (hcancel : st.cancel = false) :
    callback cfg st chunk = (0, st, []) := by
  by_cases h : chunk.length = 0 <;> simp [callback, hvalid, hcancel, h]

/-- Witness for C4 amended at a concrete state and chunk. -/
theorem c4_amended_witness :
    callback cfg7 { st0 with sweep_valid := true } [0xFF] =
      (0, { st0 with sweep_valid := true }, []) :=
  c4_amended cfg7 { st0 with sweep_valid := true } [0xFF] rfl rfl

/-- C5 counterexample: the claim says every callback writes all `length`
bytes of its chunk to the log.  With `sample_bits = 7, sweep_len = 2,
fft = false` and a log configured, the 6-byte chunk `FF 05 7A 8F 00 00`
commits its frame at `read_idx = 3` and the callback logs only the first
3 bytes. -/
theorem c5_counterexample :
    (callback cfg7log st0 [0xFF, 0x05, 0x7A, 0x8F, 0x00, 0x00]).2.2 =
      [0xFF, 0x05, 0x7A] ∧
    (callback cfg7log st0 [0xFF, 0x05, 0x7A, 0x8F, 0x00, 0x00]).2.2.length ≠
      ([0xFF, 0x05, 0x7A, 0x8F, 0x00, 0x00] : List Nat).length := by
  decide

/-- C5 amended: on every invocation the bytes the callback writes to the
log are an initial segment of the received chunk — the whole chunk when
parsing ran to the chunk's end (`read_idx == 0` at the `log:` label), only
the first `read_idx` bytes when the stop phase resolved mid-chunk, and
nothing at all when the slot is still valid, cancellation is pending, or no
log is configured.  The log is therefore a concatenation of chunk prefixes,
not the byte-exact stream. -/
theorem c5_amended (cfg : Cfg) (st : St) (chunk : List Nat) :
    ∃ n, (callback cfg st chunk).2.2 = chunk.take n := by
  unfold callback
  split
  · exact ⟨0, rfl⟩
  · split
    · exact ⟨0, rfl⟩
    · split
      · exact ⟨0, rfl⟩
      · refine ⟨if cfg.has_log then
          (if (fmcw_dispatch cfg chunk st).1 = 0 then chunk.length
           else (fmcw_dispatch cfg chunk st).1) else 0, ?_⟩
        simp only [logBytes]
        split
        · split
          · simp
          · rfl
        · simp

/-- C6: the claim says `fmcw_start_acquisition` returns FALSE on every
configuration error (zero `sweep_len`, zero `sample_bits`, unopenable log
path).  In fact it can never return FALSE: `sweep_len` and `sample_bits`
are not validated at all, and the only failure check compares the `FILE*`
returned by `fopen` against 0 with `<`, which is false even when `fopen`
returns NULL.  The function returns TRUE for every input, including
`sweep_len = 0`, `sample_bits = 0` and a failing `fopen` (address 0). -/
theorem c6_start_acquisition_cannot_fail :
    ∀ (log_path : Option (List Nat)) (fopen_addr sample_bits sweep_len : Nat)
      (fft : Bool),
      (fmcw_start_acquisition log_path fopen_addr sample_bits sweep_len fft).1 =
        true := by
  intro lp addr sb sl f
  cases lp with
  | none => rfl
  | some p =>
    have h : ¬((addr : Int) < 0) := by omega
    simp [fmcw_start_acquisition, h]

/-- C7: the claim says the active phase is determined by the triple with
ReadSamples active whenever `stop_run = 0` and (`sweep_idx > 0` or
`byte_idx > 0`), so that a first sample split across a chunk boundary
resumes in ReadSamples.  The code dispatches on `_sweep_idx` alone: with
`sample_bits = 9, sweep_len = 2` (two-byte samples), feeding `FF FF 00`
leaves the reachable state `stop_flags = 0, sweep_idx = 0, byte_idx = 1`,
and the next chunk `05 00 7A 8F 8F` is routed to `read_start_seq` (the
AwaitStart phase), which returns 0 immediately because `_start_flags`
still equals `_nflags` — no byte is parsed and no sweep is ever published,
whereas the same eight bytes in one chunk publish the sweep. -/
theorem c7_phase_dispatch :
    (feed cfg9 st0 [0xFF, 0xFF, 0x00]).stop_flags = 0 ∧
    (feed cfg9 st0 [0xFF, 0xFF, 0x00]).sweep_idx = 0 ∧
    (feed cfg9 st0 [0xFF, 0xFF, 0x00]).byte_idx = 1 ∧
    (feed cfg9 (feed cfg9 st0 [0xFF, 0xFF, 0x00])
      [0x05, 0x00, 0x7A, 0x8F, 0x8F]).sweep_valid = false ∧
    (feed cfg9 (feed cfg9 st0 [0xFF, 0xFF, 0x00])
      [0x05, 0x00, 0x7A, 0x8F, 0x8F]).writes = [] ∧
    (feed cfg9 st0 [0xFF, 0xFF, 0x00, 0x05, 0x00, 0x7A, 0x8F, 0x8F]).sweep_valid =
      true := by
  decide

/-- C8 counterexample: the claim says `nflags` strictly exceeds
`sample_bytes` for every `sample_bits` in [1..32] and both modes.  At
`sample_bits = 7, fft = false` both equal 1 (`nflags = pow2ceil(0 + 1)`,
`sample_bytes = pow2ceil(1)`), so the strict inequality fails. -/
theorem c8_counterexample :
    num_flags false 7 = 1 ∧ sample_bytes false 7 = 1 ∧
    ¬ sample_bytes false 7 < num_flags false 7 := by
  decide

/-- C8 amended: for every `sample_bits` in [1..32] and both fft modes,
`nflags` is at least `sample_bytes` — a complete flag run is at least as
long as, but not always strictly longer than, a valid sample (equality
holds e.g. at `sample_bits = 7, fft = false`, where both are 1). -/
theorem c8_amended : ∀ sb : Nat, sb < 33 → 1 ≤ sb →
    ∀ fft : Bool, sample_bytes fft sb ≤ num_flags fft sb := by
  decide

/-- Witness for C8 amended at `sample_bits = 16, fft = true`. -/
theorem c8_amended_witness : sample_bytes true 16 ≤ num_flags true 16 :=
  c8_amended 16 (by decide) (by decide) true

/-- C10: `fmcw_read_sweep` with `valid = false` returns FALSE, leaves the
caller's array, the slot buffer, and the valid flag untouched; with
`valid = true` it returns TRUE, copies all `sweep_len` slot elements into
the caller's array (positions at or beyond `sweep_len` are untouched),
leaves the slot buffer unchanged, and clears the valid flag. -/
theorem c10_read_sweep (len : Nat) (slot arr : Nat → Int) :
    fmcw_read_sweep len slot false arr = (false, arr, slot, false) ∧
    (fmcw_read_sweep len slot true arr).1 = true ∧
    (∀ i, i < len → (fmcw_read_sweep len slot true arr).2.1 i = slot i) ∧
    (∀ i, len ≤ i → (fmcw_read_sweep len slot true arr).2.1 i = arr i) ∧
    (fmcw_read_sweep len slot true arr).2.2.1 = slot ∧
    (fmcw_read_sweep len slot true arr).2.2.2 = false := by
  refine ⟨rfl, rfl, ?_, ?_, rfl, rfl⟩
  · intro i h
    exact copy_sweep_lt len slot arr i h
  · intro i h
    exact copy_sweep_ge len slot arr i h

/-- Witness for C10 at a concrete slot, array and length. -/
theorem c10_read_sweep_witness :
    (fmcw_read_sweep 1 (fun _ => (5 : Int)) true (fun _ => 0)).2.1 0 = 5 :=
  (c10_read_sweep 1 (fun _ => (5 : Int)) (fun _ => 0)).2.2.1 0 (by decide)

end Fmcw

namespace Fmcw

theorem land_mod_right (a b n : Nat) (h : a < 2 ^ n) : a &&& b = a &&& (b % 2 ^ n) := by
  apply Nat.eq_of_testBit_eq
  intro i
  simp only [Nat.testBit_and, Nat.testBit_mod_two_pow]
  by_cases hi : i < n
  · simp [hi]
  · have hb : a.testBit i = false :=
      Nat.testBit_lt_two_pow
        (lt_of_lt_of_le h (Nat.pow_le_pow_right (by norm_num) (by omega)))
    simp [hb]

theorem land_two_pow_of_lt (a k : Nat) (h : a < 2 ^ k) : a &&& 2 ^ k = 0 := by
  apply Nat.eq_of_testBit_eq
  intro i
  simp only [Nat.testBit_and, Nat.zero_testBit]
  by_cases hik : i = k
  · subst hik
    simp [Nat.testBit_lt_two_pow h]
  · simp [Nat.testBit_two_pow_of_ne (Ne.symm hik)]

theorem land_two_pow_of_ge (a k : Nat) (h1 : 2 ^ k ≤ a) (h2 : a < 2 ^ (k + 1)) :
    a &&& 2 ^ k = 2 ^ k := by
  apply Nat.eq_of_testBit_eq
  intro i
  simp only [Nat.testBit_and]
  by_cases hik : i = k
  · subst hik
    have hp : 0 < 2 ^ i := Nat.two_pow_pos i
    have hdiv : a / 2 ^ i = 1 := by
      have hge : 1 ≤ a / 2 ^ i := (Nat.one_le_div_iff hp).mpr h1
      have hlt : a / 2 ^ i < 2 := by
        rw [Nat.div_lt_iff_lt_mul hp]
        calc a < 2 ^ (i + 1) := h2
        _ = 2 * 2 ^ i := by ring
      omega
    simp [Nat.testBit_to_div_mod, hdiv, Nat.testBit_two_pow_self]
  · simp [Nat.testBit_two_pow_of_ne (Ne.symm hik)]

theorem sample_mask_mod (k : Nat) (hk : k ≤ 31) :
    sample_mask (k + 1) % 2 ^ (k + 1) = 2 ^ k ∧
    uint64_not (sample_mask (k + 1)) % 2 ^ (k + 1) = 2 ^ k - 1 := by
  have hsucc : (2 : Nat) ^ (k + 1) = 2 * 2 ^ k := by ring
  have hone : (1 : Nat) ≤ 2 ^ k := Nat.one_le_two_pow
  by_cases hcase : k ≤ 30
  · have h2k31 : (2 : Nat) ^ k < 2 ^ 31 := by
      calc (2 : Nat) ^ k ≤ 2 ^ 30 := Nat.pow_le_pow_right (by norm_num) hcase
      _ < 2 ^ 31 := by norm_num
    have h2k64 : (2 : Nat) ^ k < 2 ^ 64 := by
      calc (2 : Nat) ^ k < 2 ^ 31 := h2k31
      _ < 2 ^ 64 := by norm_num
    have hm : sample_mask (k + 1) = 2 ^ k := by
      unfold sample_mask
      simp only [Nat.add_sub_cancel]
      rw [Nat.mod_eq_of_lt (by
        calc (2 : Nat) ^ k < 2 ^ 31 := h2k31
        _ < 2 ^ 32 := by norm_num)]
      rw [if_pos h2k31]
    constructor
    · rw [hm]
      exact Nat.mod_eq_of_lt (by omega)
    · rw [hm]
      unfold uint64_not
      rw [Nat.mod_eq_of_lt h2k64]
      have e2 : (2 : Nat) ^ (k + 1) * 2 ^ (63 - k) = 2 ^ 64 := by
        rw [← pow_add]
        congr 1
        omega
      have hone2 : (1 : Nat) ≤ 2 ^ (63 - k) := Nat.one_le_two_pow
      have e3 : 2 ^ (k + 1) * (2 ^ (63 - k) - 1) + 2 ^ (k + 1) =
          2 ^ (k + 1) * 2 ^ (63 - k) := by
        rw [← Nat.mul_succ]
        congr 1
        omega
      have e1 : (2 : Nat) ^ 64 - 1 - 2 ^ k =
          (2 ^ k - 1) + 2 ^ (k + 1) * (2 ^ (63 - k) - 1) := by omega
      rw [e1, Nat.add_mul_mod_self_left]
      exact Nat.mod_eq_of_lt (by omega)
  · have hk31 : k = 31 := by omega
    subst hk31
    constructor
    · unfold sample_mask
      decide
    · unfold sample_mask uint64_not
      decide

theorem decode_masked_eval (k u : Nat) (hk : k ≤ 31) (hu : u < 2 ^ (k + 1)) :
    sample_val_real (k + 1) u =
      if u < 2 ^ k then (u : Int) else (u : Int) - 2 ^ (k + 1) := by
  have hsucc : (2 : Nat) ^ (k + 1) = 2 * 2 ^ k := by ring
  have hone : (1 : Nat) ≤ 2 ^ k := Nat.one_le_two_pow
  have h2k31 : (2 : Nat) ^ k ≤ 2 ^ 31 := Nat.pow_le_pow_right (by norm_num) hk
  have h2k64 : (2 : Nat) ^ k < 2 ^ 64 := by
    calc (2 : Nat) ^ k ≤ 2 ^ 31 := h2k31
    _ < 2 ^ 64 := by norm_num
  unfold sample_val_real decode_masked
  rw [land_mod_right u (sample_mask (k + 1)) (k + 1) hu, (sample_mask_mod k hk).1]
  rw [land_mod_right u (uint64_not (sample_mask (k + 1))) (k + 1) hu,
    (sample_mask_mod k hk).2, Nat.and_pow_two_sub_one_eq_mod]
  by_cases hcase : u < 2 ^ k
  · rw [land_two_pow_of_lt u k hcase, Nat.mod_eq_of_lt hcase]
    have hneg : uint64_neg 0 = 0 := by decide
    rw [hneg, Nat.zero_add, Nat.mod_eq_of_lt (by omega : u < 2 ^ 64)]
    unfold int_of_uint64
    have h32 : u % 2 ^ 32 = u := Nat.mod_eq_of_lt (by omega)
    simp only [h32]
    rw [if_pos (by omega : u < 2 ^ 31), if_pos hcase]
  · have hge : 2 ^ k ≤ u := by omega
    rw [land_two_pow_of_ge u k hge hu]
    have hmod : u % 2 ^ k = u - 2 ^ k := by
      rw [Nat.mod_eq_sub_mod hge]
      exact Nat.mod_eq_of_lt (by omega)
    rw [hmod]
    have hnegk : uint64_neg (2 ^ k) = 2 ^ 64 - 2 ^ k := by
      unfold uint64_neg
      rw [Nat.mod_eq_of_lt h2k64]
      exact Nat.mod_eq_of_lt (by omega)
    rw [hnegk]
    rw [Nat.mod_eq_of_lt (by omega : 2 ^ 64 - 2 ^ k + (u - 2 ^ k) < 2 ^ 64)]
    unfold int_of_uint64
    have e2 : (2 : Nat) ^ 32 * (2 ^ 32 - 1) = 2 ^ 64 - 2 ^ 32 := by norm_num
    have e1 : 2 ^ 64 - 2 ^ k + (u - 2 ^ k) =
        (2 ^ 32 - 2 ^ k + (u - 2 ^ k)) + 2 ^ 32 * (2 ^ 32 - 1) := by omega
    have h32 : (2 ^ 64 - 2 ^ k + (u - 2 ^ k)) % 2 ^ 32 =
        2 ^ 32 - 2 ^ k + (u - 2 ^ k) := by
      rw [e1, Nat.add_mul_mod_self_left]
      exact Nat.mod_eq_of_lt (by omega)
    simp only [h32]
    rw [if_neg (by omega : ¬(2 ^ 32 - 2 ^ k + (u - 2 ^ k) < 2 ^ 31)), if_neg hcase]
    have t1 : (2 ^ k : Nat) ≤ 2 ^ 32 := by omega
    have hc1 : ((2 ^ 32 - 2 ^ k + (u - 2 ^ k) : Nat) : Int) =
        (2 ^ 32 : Int) - ((2 ^ k : Nat) : Int) + (((u : Nat) : Int) - ((2 ^ k : Nat) : Int)) := by
      rw [Nat.cast_add, Nat.cast_sub t1, Nat.cast_sub hge]
      push_cast
      ring
    rw [hc1]
    push_cast
    rw [show ((2 : Int) ^ (k + 1)) = 2 * 2 ^ k by ring]
    ring

/-- C9: real-mode decode round-trips two's-complement.  For every
`sample_bits` in [1..32] and every `v` in `[-2^(sample_bits-1),
2^(sample_bits-1) - 1]`, applying the real-mode `sample_val` to the
unsigned word whose low `sample_bits` bits are the two's-complement
encoding of `v` and whose higher bits are all zero returns exactly `v`.
(For `sample_bits = 32` the C expression `0x1 << 31` overflows `int`; as
everywhere in this development it is modelled with two's-complement wrap,
under which the round-trip still holds.) -/
theorem c9_roundtrip : ∀ sb : Nat, 1 ≤ sb → sb ≤ 32 → ∀ v : Int,
    -(2 ^ (sb - 1) : Int) ≤ v → v < 2 ^ (sb - 1) →
    sample_val_real sb (Int.toNat (v % (2 ^ sb : Int))) = v := by
  intro sb hsb1 hsb32 v hlo hhi
  obtain ⟨k, rfl⟩ : ∃ k, sb = k + 1 := ⟨sb - 1, by omega⟩
  simp only [Nat.add_sub_cancel] at hlo hhi
  have hk31 : k ≤ 31 := by omega
  have hpkZ : (0 : Int) < 2 ^ k := pow_pos (by norm_num) k
  have heZ : (2 : Int) ^ (k + 1) = 2 * 2 ^ k := by ring
  have hposZ : (0 : Int) < 2 ^ (k + 1) := by positivity
  set u : Nat := Int.toNat (v % (2 ^ (k + 1) : Int)) with hudef
  have hmodnn : (0 : Int) ≤ v % (2 ^ (k + 1)) := Int.emod_nonneg v (by positivity)
  have humod : ((u : Int)) = v % (2 ^ (k + 1) : Int) := Int.toNat_of_nonneg hmodnn
  have hmodlt : v % (2 ^ (k + 1) : Int) < 2 ^ (k + 1) := Int.emod_lt_of_pos v hposZ
  have hu_lt : u < 2 ^ (k + 1) := by
    have hx : ((u : Int)) < ((2 ^ (k + 1) : Nat) : Int) := by
      rw [humod]
      push_cast
      exact hmodlt
    exact_mod_cast hx
  rw [decode_masked_eval k u hk31 hu_lt]
  rcases le_or_lt 0 v with hv | hv
  · have hveq : v % (2 ^ (k + 1) : Int) = v := by
      apply Int.emod_eq_of_lt hv
      calc v < 2 ^ k := hhi
      _ < 2 ^ (k + 1) := by linarith
    have hui : (u : Int) = v := by rw [humod, hveq]
    have hulk : u < 2 ^ k := by
      have hx : ((u : Int)) < ((2 ^ k : Nat) : Int) := by
        rw [hui]
        push_cast
        exact hhi
      exact_mod_cast hx
    rw [if_pos hulk, hui]
  · have h0 : (0 : Int) ≤ v + 2 ^ (k + 1) := by linarith
    have h1 : v + 2 ^ (k + 1) < 2 ^ (k + 1) := by linarith
    have hveq : v % (2 ^ (k + 1) : Int) = v + 2 ^ (k + 1) := by
      conv_lhs => rw [show v = (v + 2 ^ (k + 1)) + 2 ^ (k + 1) * (-1) by ring]
      rw [Int.add_mul_emod_self_left]
      exact Int.emod_eq_of_lt h0 h1
    have hui : (u : Int) = v + 2 ^ (k + 1) := by rw [humod, hveq]
    have hugeZ : ((2 ^ k : Nat) : Int) ≤ (u : Int) := by
      rw [hui]
      push_cast
      linarith
    have huge : 2 ^ k ≤ u := by exact_mod_cast hugeZ
    rw [if_neg (by omega : ¬ u < 2 ^ k), hui]
    ring

/-- Witness for C9 at `sample_bits = 7, v = -6` (the last sample of the
spec's nominal frame). -/
theorem c9_roundtrip_witness :
    sample_val_real 7 (Int.toNat ((-6 : Int) % (2 ^ 7 : Int))) = -6 :=
  c9_roundtrip 7 (by decide) (by decide) (-6) (by decide) (by decide)

end Fmcw
